import Mathlib

/-! Shallow embedding of the document-chunking miner of this repository.

The embedded code is `src/chunking/miners/punkt_miner.py` (rule-based
sentence-packing strategy), `src/chunking/miners/openai_miner.py`
(model-backed strategy with retry), and the request record they share.
External collaborators that are not part of the repository (the NLTK punkt
sentence tokenizer, the retry decorator library, the sr25519 signing
primitive, the OpenAI transport) are modelled from the specification, as
noted on each definition. -/

/-- Lowercase hexadecimal digit alphabet, as produced by Python `bytes.hex()`
and by `json.dumps` unicode escapes. -/
def hexDigitChars : List Char :=
  "0123456789abcdef".toList

/-- Nibble value to its lowercase hexadecimal digit (table lookup, as in the
CPython implementation; nibble values are always below 16). -/
def hexDigit (n : Nat) : Char :=
  hexDigitChars.getD n 'f'

/-- Four lowercase hexadecimal digits of a 16-bit value (for `\uXXXX` escapes). -/
def hex4 (n : Nat) : List Char :=
  [hexDigit (n / 4096 % 16), hexDigit (n / 256 % 16), hexDigit (n / 16 % 16), hexDigit (n % 16)]

/-- One byte as two lowercase hexadecimal digits, as in Python `bytes.hex()`. -/
def byteToHex (b : UInt8) : List Char :=
  [hexDigit (b.toNat / 16), hexDigit (b.toNat % 16)]

/-- Python `bytes.hex()`: the lowercase hexadecimal encoding of a byte string. -/
def bytesToHex (bs : List UInt8) : String :=
  String.mk (bs.map byteToHex).flatten

/-- Python `str.encode()`: the UTF-8 bytes of a string. -/
def strEncode (s : String) : List UInt8 :=
  s.toUTF8.toList

/-- Escape of a single character inside a JSON string literal, following the
default (`ensure_ascii`) behaviour of Python `json.dumps`: only the printable
ASCII range U+0020 to U+007E passes through raw — U+007F (DEL) and everything
above is written as a `\uXXXX` escape. -/
def jsonEscapeChar (c : Char) : List Char :=
  if c = '"' then ['\\', '"']
  else if c = '\\' then ['\\', '\\']
  else if c = '\n' then ['\\', 'n']
  else if c = '\t' then ['\\', 't']
  else if c = '\r' then ['\\', 'r']
  else if c.toNat = 8 then ['\\', 'b']
  else if c.toNat = 12 then ['\\', 'f']
  else if c.toNat < 32 then '\\' :: 'u' :: hex4 c.toNat
  else if c.toNat < 127 then [c]
  else if c.toNat < 65536 then '\\' :: 'u' :: hex4 c.toNat
  else
    '\\' :: 'u' :: hex4 (55296 + (c.toNat - 65536) / 1024)
      ++ '\\' :: 'u' :: hex4 (56320 + (c.toNat - 65536) % 1024)

/-- A JSON string literal for `s`, as written by Python `json.dumps`. -/
def jsonStr (s : String) : String :=
  String.mk ('"' :: (s.toList.map jsonEscapeChar).flatten ++ ['"'])

/-- The exact byte-for-byte serialization signed by both miners:
`json.dumps(\x7b"document": ..., "chunk_size": ..., "chunk_qty": ..., "chunks": ...\x7d)`
with Python default separators and the fixed key order of the source
(`punkt_miner.py` lines 47-52, `openai_miner.py` lines 68-73). -/
def serializeResponseData (document : String) (chunk_size chunk_qty : Nat)
    (chunks : List String) : String :=
  "\x7b\"document\": " ++ jsonStr document
    ++ ", \"chunk_size\": " ++ toString chunk_size
    ++ ", \"chunk_qty\": " ++ toString chunk_qty
    ++ ", \"chunks\": [" ++ String.intercalate ", " (chunks.map jsonStr) ++ "]\x7d"

/-- The request/response record `chunkSynapse` of `chunking/protocol.py` as the
miners use it: `document`, `chunk_size`, `chunk_qty` and the advisory
`time_soft_max` arrive with the request; `chunks` and `miner_signature` are
filled in by the strategy. -/
structure chunkSynapse where
  document : String
  chunk_size : Nat
  chunk_qty : Nat
  time_soft_max : Nat
  chunks : List String
  miner_signature : Option String

/-- Modelled from the spec: the NLTK punkt sentence tokenizer used by
`punkt_miner.py` is not part of the repository.  Per the spec it splits the
document into maximal sentences at sentence-final punctuation, so this model
ends a sentence at `.`, `!` or `?` when followed by the separating space.
The accumulator holds the characters of the current sentence in reverse. -/
def sentTokenizeAux : List Char → List Char → List String
  | [], acc => if acc.isEmpty then [] else [String.mk acc.reverse]
  | [c], acc => [String.mk (c :: acc).reverse]
  | c :: c2 :: rest, acc =>
    if (c = '.' ∨ c = '!' ∨ c = '?') ∧ c2 = ' ' then
      String.mk (c :: acc).reverse :: sentTokenizeAux rest []
    else
      sentTokenizeAux (c2 :: rest) (c :: acc)

/-- Modelled from the spec: `sent_tokenize` of `punkt_miner.py` line 33. -/
def sent_tokenize (document : String) : List String :=
  sentTokenizeAux document.toList []

/-- The inner `while` loop of `punkt_miner.miner_process` (lines 40-43): keep
appending the next sentence, joined with a single space, to the current chunk
while the joined length stays within `chunk_size`.  Returns the finished chunk
and the remaining (unconsumed) sentences. -/
def fillChunk (chunk_size : Nat) : String → List String → String × List String
  | cur, [] => (cur, [])
  | cur, s :: rest =>
    if (cur ++ " " ++ s).length > chunk_size then (cur, s :: rest)
    else fillChunk chunk_size (cur ++ " " ++ s) rest

/-- The outer `while` loop of `punkt_miner.miner_process` (lines 36-43) with an
explicit iteration budget: each outer iteration starts a chunk with the next
unconsumed sentence and extends it with `fillChunk`.  Every iteration consumes
at least one sentence, so a budget of the sentence count is enough; the
termination theorem for claim C10 proves the result does not depend on any
larger budget. -/
def packFuel (chunk_size : Nat) : Nat → List String → List String
  | 0, _ => []
  | _ + 1, [] => []
  | fuel + 1, s :: rest =>
    (fillChunk chunk_size s rest).1 :: packFuel chunk_size fuel (fillChunk chunk_size s rest).2

/-- The whole greedy packing of `punkt_miner.miner_process` (lines 35-43):
run the outer loop until all sentences are consumed. -/
def packChunks (chunk_size : Nat) (sentences : List String) : List String :=
  packFuel chunk_size sentences.length sentences

namespace punkt_miner

/-- `miner_process` of `src/chunking/miners/punkt_miner.py` (lines 30-61).
The sr25519 `sign` primitive with the fixed wallet keypair is abstracted as
the function argument `sg` from payload bytes to signature bytes. -/
def miner_process (sg : List UInt8 → List UInt8) (synapse : chunkSynapse) : chunkSynapse :=
  let chunks := packChunks synapse.chunk_size (sent_tokenize synapse.document)
  { synapse with
    chunks := chunks
    miner_signature := some (bytesToHex (sg (strEncode
      (serializeResponseData synapse.document synapse.chunk_size synapse.chunk_qty chunks)))) }

end punkt_miner

namespace openai_miner

/-- The `ValueError` message raised by `openai_miner.miner_process` line 63. -/
def valueErrorMsg : String :=
  "Response does not contain \x27chunks\x27 or \x27chunks\x27 is empty"

/-- One attempt of `miner_process` of `src/chunking/miners/openai_miner.py`
(lines 36-77), from the point where the service response has been parsed:
`content_chunks` is `content.get("chunks", ...)` — `none` when the parsed JSON
object has no `chunks` field, `some l` when it maps `chunks` to the list `l`.
The code takes `content.get("chunks", [])` and raises `ValueError` when that
list is falsy (empty); otherwise it stores the chunks, signs the response data
and returns the synapse.  The sr25519 `sign` with the wallet keypair is
abstracted as `sg`. -/
def miner_process (sg : List UInt8 → List UInt8) (synapse : chunkSynapse)
    (content_chunks : Option (List String)) : Except String chunkSynapse :=
  let chunks := content_chunks.getD []
  if chunks.isEmpty then
    Except.error valueErrorMsg
  else
    Except.ok { synapse with
      chunks := chunks
      miner_signature := some (bytesToHex (sg (strEncode
        (serializeResponseData synapse.document synapse.chunk_size synapse.chunk_qty chunks)))) }

end openai_miner

/-- True exactly on the success constructor of `Except`. -/
def exceptIsOk {E A : Type} : Except E A → Bool
  | Except.ok _ => true
  | Except.error _ => false

/-- The chunks carried by a strategy outcome (empty on the failure path,
where no chunks are returned at all). -/
def respChunks : Except String chunkSynapse → List String
  | Except.ok out => out.chunks
  | Except.error _ => []

/-- A strategy outcome is never a success carrying zero chunks. -/
def okChunksNonempty : Except String chunkSynapse → Prop
  | Except.ok out => out.chunks ≠ []
  | Except.error _ => True

/-- Modelled from the spec: the delay schedule of the external retry
decorator — the first sleep is `delay` and each further sleep multiplies it
by `backoff`; `r` is the number of sleeps (retries) left. -/
def delaysList (delay backoff : Nat) : Nat → List Nat
  | 0 => []
  | r + 1 => delay :: delaysList (delay * backoff) backoff r

/-- Modelled from the spec: the external `retry` decorator of
`openai_miner.py` lines 30-35.  `call i` is the i-th attempt of the wrapped
function; `r` is the number of retries still allowed after the current
attempt.  On failure with retries left it sleeps `delay`, multiplies the delay
by `backoff` and tries again; the last failure is surfaced.  Returns the list
of sleeps performed, the number of attempts made, and the final outcome. -/
def retryGo {E A : Type} (call : Nat → Except E A) (backoff : Nat) :
    Nat → Nat → Nat → List Nat × Nat × Except E A
  | idx, _, 0 =>
    match call idx with
    | Except.ok a => ([], idx + 1, Except.ok a)
    | Except.error e => ([], idx + 1, Except.error e)
  | idx, delay, r + 1 =>
    match call idx with
    | Except.ok a => ([], idx + 1, Except.ok a)
    | Except.error _ =>
      let p := retryGo call backoff (idx + 1) (delay * backoff) r
      (delay :: p.1, p.2)

/-- Modelled from the spec: `@retry(tries=..., delay=..., backoff=...)` makes
at most `tries` attempts in total, so `tries - 1` retries follow the first
attempt. -/
def retryCall {E A : Type} (call : Nat → Except E A) (tries delay backoff : Nat) :
    List Nat × Nat × Except E A :=
  retryGo call backoff 0 delay (tries - 1)

/-- The i-th full attempt of the decorated `openai_miner.miner_process`:
`responses i` is the transport outcome of the i-th service call (an error for
a transport failure, otherwise the parsed `chunks` field), fed into the body
of `miner_process`. -/
def openai_attempt (sg : List UInt8 → List UInt8) (synapse : chunkSynapse)
    (responses : Nat → Except String (Option (List String))) (i : Nat) :
    Except String chunkSynapse :=
  (responses i).bind (fun content => openai_miner.miner_process sg synapse content)

/-- `miner_process` of `openai_miner.py` as actually exported: the body wrapped
in `@retry(tries=3, delay=1, backoff=2)` (lines 30-35). -/
def retried_miner_process (sg : List UInt8 → List UInt8) (synapse : chunkSynapse)
    (responses : Nat → Except String (Option (List String))) :
    List Nat × Nat × Except String chunkSynapse :=
  retryCall (openai_attempt sg synapse responses) 3 1 2

/-- Joining a chunk sequence with the single-space join character of the
rule-based strategy. -/
def joinSp : List String → String
  | [] => ""
  | [s] => s
  | s :: s2 :: rest => s ++ " " ++ joinSp (s2 :: rest)

/-- The identity signature function, used to instantiate the abstract sr25519
signer on concrete inputs. -/
def idSign : List UInt8 → List UInt8 := fun b => b

/-- A sample incoming request record. -/
def synA : chunkSynapse := ⟨"d", 5, 2, 7, [], none⟩

/-- The response the model-backed strategy produces from `synA` when the
service returns the single chunk `"a"`. -/
def outA : chunkSynapse :=
  { document := "d", chunk_size := 5, chunk_qty := 2, time_soft_max := 7, chunks := ["a"],
    miner_signature :=
      some (bytesToHex (idSign (strEncode (serializeResponseData "d" 5 2 ["a"])))) }

/-! Helper lemmas about the embedded definitions. -/

theorem fillChunk_snd_length (k : Nat) :
    ∀ (l : List String) (cur : String), (fillChunk k cur l).2.length ≤ l.length := by
  intro l
  induction l with
  | nil => intro cur; simp [fillChunk]
  | cons s rest ih =>
    intro cur
    simp only [fillChunk]
    by_cases h : (cur ++ " " ++ s).length > k
    · rw [if_pos h]
    · rw [if_neg h]
      exact Nat.le_trans (ih (cur ++ " " ++ s)) (Nat.le_succ rest.length)

theorem fillChunk_snd_mem (k : Nat) :
    ∀ (l : List String) (cur : String) (c : String), c ∈ (fillChunk k cur l).2 → c ∈ l := by
  intro l
  induction l with
  | nil => intro cur c hc; simp [fillChunk] at hc
  | cons s rest ih =>
    intro cur c hc
    simp only [fillChunk] at hc
    by_cases h : (cur ++ " " ++ s).length > k
    · rw [if_pos h] at hc; exact hc
    · rw [if_neg h] at hc
      exact List.mem_cons_of_mem s (ih (cur ++ " " ++ s) c hc)

theorem fillChunk_fst_or (k : Nat) :
    ∀ (l : List String) (cur : String),
      (fillChunk k cur l).1 = cur ∨ (fillChunk k cur l).1.length ≤ k := by
  intro l
  induction l with
  | nil => intro cur; left; simp [fillChunk]
  | cons s rest ih =>
    intro cur
    simp only [fillChunk]
    by_cases h : (cur ++ " " ++ s).length > k
    · rw [if_pos h]; left; rfl
    · rw [if_neg h]
      rcases ih (cur ++ " " ++ s) with heq | hle
      · right; rw [heq]; exact Nat.le_of_not_lt h
      · right; exact hle

theorem fillChunk_fst_length (k : Nat) :
    ∀ (l : List String) (cur : String), cur.length ≤ (fillChunk k cur l).1.length := by
  intro l
  induction l with
  | nil => intro cur; simp [fillChunk]
  | cons s rest ih =>
    intro cur
    simp only [fillChunk]
    by_cases h : (cur ++ " " ++ s).length > k
    · rw [if_pos h]
    · rw [if_neg h]
      refine Nat.le_trans ?_ (ih (cur ++ " " ++ s))
      rw [String.length_append, String.length_append]
      omega

theorem joinSp_cons_cons (a b : String) (l : List String) :
    joinSp (a :: b :: l) = a ++ " " ++ joinSp (b :: l) := rfl

theorem fillChunk_join (k : Nat) :
    ∀ (l : List String) (cur : String),
      joinSp ((fillChunk k cur l).1 :: (fillChunk k cur l).2) = joinSp (cur :: l) := by
  intro l
  induction l with
  | nil => intro cur; rfl
  | cons s rest ih =>
    intro cur
    simp only [fillChunk]
    by_cases h : (cur ++ " " ++ s).length > k
    · rw [if_pos h]
    · rw [if_neg h, ih (cur ++ " " ++ s)]
      cases rest with
      | nil => rfl
      | cons r rs =>
        simp only [joinSp_cons_cons, String.append_assoc]

theorem packFuel_nil (k : Nat) : ∀ (fuel : Nat), packFuel k fuel [] = [] := by
  intro fuel
  cases fuel <;> rfl

theorem packFuel_congr (k : Nat) :
    ∀ (f1 : Nat) (ss : List String) (f2 : Nat),
      ss.length ≤ f1 → ss.length ≤ f2 → packFuel k f1 ss = packFuel k f2 ss := by
  intro f1
  induction f1 with
  | zero =>
    intro ss f2 h1 h2
    have hss : ss = [] := List.length_eq_zero.mp (Nat.le_zero.mp h1)
    subst hss
    rw [packFuel_nil, packFuel_nil]
  | succ f ih =>
    intro ss f2 h1 h2
    cases ss with
    | nil => rw [packFuel_nil, packFuel_nil]
    | cons s rest =>
      cases f2 with
      | zero => simp at h2
      | succ f2 =>
        simp only [packFuel]
        congr 1
        have hsub := fillChunk_snd_length k rest s
        apply ih
        · exact Nat.le_trans hsub (by simpa using h1)
        · exact Nat.le_trans hsub (by simpa using h2)

theorem packFuel_mem (k : Nat) :
    ∀ (fuel : Nat) (ss : List String) (c : String),
      c ∈ packFuel k fuel ss → c.length ≤ k ∨ c ∈ ss := by
  intro fuel
  induction fuel with
  | zero => intro ss c hc; simp [packFuel] at hc
  | succ n ih =>
    intro ss c hc
    cases ss with
    | nil => simp [packFuel] at hc
    | cons s rest =>
      simp only [packFuel] at hc
      rcases List.mem_cons.mp hc with h | h
      · rcases fillChunk_fst_or k rest s with heq | hle
        · right; rw [h, heq]; exact List.mem_cons_self s rest
        · left; rw [h]; exact hle
      · rcases ih (fillChunk k s rest).2 c h with hle | hmem
        · left; exact hle
        · right; exact List.mem_cons_of_mem s (fillChunk_snd_mem k rest s c hmem)

theorem packFuel_pos (k : Nat) :
    ∀ (fuel : Nat) (ss : List String),
      (∀ s ∈ ss, 0 < s.length) → ∀ c ∈ packFuel k fuel ss, 0 < c.length := by
  intro fuel
  induction fuel with
  | zero => intro ss hss c hc; simp [packFuel] at hc
  | succ n ih =>
    intro ss hss c hc
    cases ss with
    | nil => simp [packFuel] at hc
    | cons s rest =>
      simp only [packFuel] at hc
      rcases List.mem_cons.mp hc with h | h
      · rw [h]
        exact Nat.lt_of_lt_of_le (hss s (List.mem_cons_self s rest)) (fillChunk_fst_length k rest s)
      · exact ih (fillChunk k s rest).2
          (fun x hx => hss x (List.mem_cons_of_mem s (fillChunk_snd_mem k rest s x hx))) c h

theorem packFuel_cons_shape (k : Nat) (fuel : Nat) (y : String) (ys : List String)
    (h : 1 ≤ fuel) :
    packFuel k fuel (y :: ys)
      = (fillChunk k y ys).1 :: packFuel k (fuel - 1) (fillChunk k y ys).2 := by
  cases fuel with
  | zero => omega
  | succ m => simp [packFuel]

theorem packFuel_join (k : Nat) :
    ∀ (fuel : Nat) (ss : List String),
      ss.length ≤ fuel → joinSp (packFuel k fuel ss) = joinSp ss := by
  intro fuel
  induction fuel with
  | zero =>
    intro ss h
    have hss : ss = [] := List.length_eq_zero.mp (Nat.le_zero.mp h)
    subst hss; rfl
  | succ n ih =>
    intro ss h
    cases ss with
    | nil => rfl
    | cons s rest =>
      have hrest : rest.length ≤ n := by simpa using h
      have hsub : (fillChunk k s rest).2.length ≤ n :=
        Nat.le_trans (fillChunk_snd_length k rest s) hrest
      simp only [packFuel]
      rw [← fillChunk_join k rest s]
      cases hf : (fillChunk k s rest).2 with
      | nil => rw [packFuel_nil]
      | cons y ys =>
        have hlen : (y :: ys).length ≤ n := hf ▸ hsub
        have hn : 1 ≤ n := Nat.le_trans (by simp) hlen
        have h1 : joinSp (packFuel k n (y :: ys)) = joinSp (y :: ys) := ih (y :: ys) hlen
        obtain ⟨a, l2, hshape⟩ : ∃ a l2, packFuel k n (y :: ys) = a :: l2 :=
          ⟨_, _, packFuel_cons_shape k n y ys hn⟩
        rw [hshape] at h1 ⊢
        rw [joinSp_cons_cons, h1, ← joinSp_cons_cons]

theorem sentTokenizeAux_pos :
    ∀ (n : Nat) (chars acc : List Char), chars.length ≤ n →
      ∀ s ∈ sentTokenizeAux chars acc, 0 < s.length := by
  intro n
  induction n with
  | zero =>
    intro chars acc h s hs
    have hchars : chars = [] := List.length_eq_zero.mp (Nat.le_zero.mp h)
    subst hchars
    cases acc with
    | nil => simp [sentTokenizeAux] at hs
    | cons a as =>
      rw [show sentTokenizeAux [] (a :: as) = [String.mk (a :: as).reverse] from rfl] at hs
      simp only [List.mem_singleton] at hs
      subst hs
      show 0 < ((a :: as).reverse).length
      simp
  | succ n ih =>
    intro chars acc h s hs
    cases chars with
    | nil =>
      cases acc with
      | nil => simp [sentTokenizeAux] at hs
      | cons a as =>
        rw [show sentTokenizeAux [] (a :: as) = [String.mk (a :: as).reverse] from rfl] at hs
        simp only [List.mem_singleton] at hs
        subst hs
        show 0 < ((a :: as).reverse).length
        simp
    | cons c rest =>
      cases rest with
      | nil =>
        simp only [sentTokenizeAux, List.mem_singleton] at hs
        subst hs
        show 0 < ((c :: acc).reverse).length
        simp
      | cons c2 rest2 =>
        by_cases hb : (c = '.' ∨ c = '!' ∨ c = '?') ∧ c2 = ' '
        · simp only [sentTokenizeAux, if_pos hb, List.mem_cons] at hs
          rcases hs with hs | hs
          · subst hs
            show 0 < ((c :: acc).reverse).length
            simp
          · have hlen : rest2.length ≤ n := by
              simp only [List.length_cons] at h; omega
            exact ih rest2 [] hlen s hs
        · simp only [sentTokenizeAux, if_neg hb] at hs
          have hlen : (c2 :: rest2).length ≤ n := by
            simp only [List.length_cons] at h ⊢; omega
          exact ih (c2 :: rest2) (c :: acc) hlen s hs

theorem sent_tokenize_pos (document : String) :
    ∀ s ∈ sent_tokenize document, 0 < s.length :=
  sentTokenizeAux_pos document.toList.length document.toList [] (Nat.le_refl _)

theorem hexDigit_mem (n : Nat) : hexDigit n ∈ hexDigitChars := by
  unfold hexDigit
  rcases Nat.lt_or_ge n hexDigitChars.length with h | h
  · rw [List.getD_eq_getElem _ _ h]; exact List.getElem_mem h
  · rw [List.getD_eq_default _ _ h]; decide

theorem bytesToHex_mem (bs : List UInt8) :
    ∀ c ∈ (bytesToHex bs).toList, c ∈ hexDigitChars := by
  intro c hc
  have hc2 : c ∈ (bs.map byteToHex).flatten := hc
  rcases List.mem_flatten.mp hc2 with ⟨l, hl, hcl⟩
  rcases List.mem_map.mp hl with ⟨b, _, hb⟩
  subst hb
  simp only [byteToHex, List.mem_cons, List.mem_singleton] at hcl
  rcases hcl with h | h | h
  · rw [h]; exact hexDigit_mem _
  · rw [h]; exact hexDigit_mem _
  · simp at h

theorem openai_ok_nonempty (sg : List UInt8 → List UInt8) (s : chunkSynapse)
    (content : Option (List String)) :
    okChunksNonempty (openai_miner.miner_process sg s content) := by
  cases hL : content.getD [] with
  | nil => simp [openai_miner.miner_process, hL, okChunksNonempty]
  | cons x xs => simp [openai_miner.miner_process, hL, okChunksNonempty]

theorem retryGo_fail {E A : Type} (call : Nat → Except E A) (backoff : Nat) :
    ∀ (r idx delay : Nat), (∀ i, exceptIsOk (call i) = false) →
      (retryGo call backoff idx delay r).1 = delaysList delay backoff r
    ∧ (retryGo call backoff idx delay r).2.1 = idx + r + 1
    ∧ exceptIsOk (retryGo call backoff idx delay r).2.2 = false := by
  intro r
  induction r with
  | zero =>
    intro idx delay h
    cases hc : call idx with
    | ok a => have h2 := h idx; rw [hc] at h2; simp [exceptIsOk] at h2
    | error e => simp [retryGo, hc, delaysList, exceptIsOk]
  | succ n ih =>
    intro idx delay h
    cases hc : call idx with
    | ok a => have h2 := h idx; rw [hc] at h2; simp [exceptIsOk] at h2
    | error e =>
      obtain ⟨h1, h2, h3⟩ := ih (idx + 1) (delay * backoff) h
      simp only [retryGo, hc, delaysList]
      refine ⟨by rw [h1], by rw [h2]; omega, h3⟩

/-! Claim theorems. -/

/-- Claim C1: every chunk emitted by the rule-based (sentence-packing) strategy
has length at most `chunk_size`, except chunks that consist of a single input
sentence which alone exceeds `chunk_size` — those are emitted whole (they are
verbatim elements of the tokenized sentence sequence, never extended or split). -/
theorem rule_based_chunk_size_bound (sg : List UInt8 → List UInt8) (s : chunkSynapse)
    (c : String) (hc : c ∈ (punkt_miner.miner_process sg s).chunks) :
    c.length ≤ s.chunk_size ∨ (c ∈ sent_tokenize s.document ∧ s.chunk_size < c.length) := by
  have hc2 : c ∈ packChunks s.chunk_size (sent_tokenize s.document) := hc
  have hm := packFuel_mem s.chunk_size (sent_tokenize s.document).length
    (sent_tokenize s.document) c hc2
  by_cases hl : c.length ≤ s.chunk_size
  · exact Or.inl hl
  · rcases hm with h | h
    · exact Or.inl h
    · exact Or.inr ⟨h, Nat.lt_of_not_le hl⟩

/-- Witness for claim C1 at a concrete request. -/
theorem rule_based_chunk_size_bound_witness :
    "Hi. Bye.".length ≤ 100 ∨ ("Hi. Bye." ∈ sent_tokenize "Hi. Bye." ∧ 100 < "Hi. Bye.".length) :=
  rule_based_chunk_size_bound idSign ⟨"Hi. Bye.", 100, 1, 5, [], none⟩ "Hi. Bye." (by decide)

/-- Counterexample to claim C2 as stated: the model-backed strategy accepts a
service response whose chunk list is `[""]` and returns the empty string as a
chunk, which has length 0. -/
theorem strategy_empty_chunk_cex :
    exceptIsOk (openai_miner.miner_process idSign synA (some [""])) = true
  ∧ respChunks (openai_miner.miner_process idSign synA (some [""])) = [""]
  ∧ String.length "" = 0 :=
  ⟨rfl, rfl, rfl⟩

/-- Claim C2 (amended): the rule-based strategy only emits chunks of positive
length; the model-backed strategy only guarantees that the chunk list itself is
non-empty — individual chunks are passed through unchecked. -/
theorem strategy_chunks_nonempty (sg : List UInt8 → List UInt8) (s : chunkSynapse) :
    (∀ c ∈ (punkt_miner.miner_process sg s).chunks, 0 < c.length)
  ∧ (∀ content, okChunksNonempty (openai_miner.miner_process sg s content)) := by
  constructor
  · intro c hc
    have hc2 : c ∈ packChunks s.chunk_size (sent_tokenize s.document) := hc
    exact packFuel_pos s.chunk_size (sent_tokenize s.document).length
      (sent_tokenize s.document) (sent_tokenize_pos s.document) c hc2
  · intro content
    exact openai_ok_nonempty sg s content

/-- Witness for claim C2 at a concrete request and response. -/
theorem strategy_chunks_nonempty_witness :
    0 < "Hi. Bye.".length
  ∧ okChunksNonempty (openai_miner.miner_process idSign synA (some ["a"])) :=
  ⟨(strategy_chunks_nonempty idSign ⟨"Hi. Bye.", 100, 1, 5, [], none⟩).1 "Hi. Bye." (by decide),
   (strategy_chunks_nonempty idSign synA).2 (some ["a"])⟩

/-- Counterexample to claim C3 as stated: with every attempt failing, the sleeps
between the 3 attempts are 1 and 2 time units — not 1, 2, 4 (there are only two
gaps between three attempts). -/
theorem retry_delay_schedule_cex :
    (retried_miner_process idSign synA (fun _ => Except.error "connection error")).1 = [1, 2]
  ∧ (retried_miner_process idSign synA (fun _ => Except.error "connection error")).1 ≠ [1, 2, 4]
  ∧ (retried_miner_process idSign synA (fun _ => Except.error "connection error")).2.1 = 3 := by
  refine ⟨rfl, ?_, rfl⟩
  decide

/-- Claim C3 (amended): when every attempt fails recoverably, the request is
attempted exactly 3 times with sleeps of 1 and 2 time units between consecutive
attempts (initial delay 1, multiplier 2), and the failure is surfaced with no
result returned. -/
theorem retry_exhaustion (sg : List UInt8 → List UInt8) (s : chunkSynapse)
    (responses : Nat → Except String (Option (List String)))
    (h : ∀ i, exceptIsOk (openai_attempt sg s responses i) = false) :
    (retried_miner_process sg s responses).1 = [1, 2]
  ∧ (retried_miner_process sg s responses).2.1 = 3
  ∧ exceptIsOk (retried_miner_process sg s responses).2.2 = false := by
  obtain ⟨h1, h2, h3⟩ := retryGo_fail (openai_attempt sg s responses) 2 2 0 1 h
  exact ⟨h1.trans (by decide), h2.trans (by norm_num), h3⟩

/-- Witness for claim C3: a transport error on every attempt. -/
theorem retry_exhaustion_witness :
    (retried_miner_process idSign synA (fun _ => Except.error "transport failure")).1 = [1, 2]
  ∧ (retried_miner_process idSign synA (fun _ => Except.error "transport failure")).2.1 = 3
  ∧ exceptIsOk
      (retried_miner_process idSign synA (fun _ => Except.error "transport failure")).2.2
      = false :=
  retry_exhaustion idSign synA (fun _ => Except.error "transport failure") (fun _ => rfl)

/-- Claim C4: on every success path the `miner_signature` field is the lowercase
hexadecimal encoding of the abstract sr25519 signature over the fixed-key-order
serialization of `document`, `chunk_size`, `chunk_qty` and the chunks actually
returned to the caller. -/
theorem signature_canonical_payload (sg : List UInt8 → List UInt8) (s : chunkSynapse) :
    (punkt_miner.miner_process sg s).miner_signature
      = some (bytesToHex (sg (strEncode (serializeResponseData s.document s.chunk_size
          s.chunk_qty (punkt_miner.miner_process sg s).chunks))))
  ∧ (∀ (content : Option (List String)) (out : chunkSynapse),
      openai_miner.miner_process sg s content = Except.ok out →
        out.miner_signature
          = some (bytesToHex (sg (strEncode (serializeResponseData s.document s.chunk_size
              s.chunk_qty out.chunks)))))
  ∧ (∀ (bs : List UInt8), ∀ c ∈ (bytesToHex (sg bs)).toList, c ∈ hexDigitChars) := by
  refine ⟨rfl, ?_, ?_⟩
  · intro content out h
    simp only [openai_miner.miner_process] at h
    by_cases hL : (content.getD []).isEmpty
    · rw [if_pos hL] at h
      exact Except.noConfusion h
    · rw [if_neg hL] at h
      injection h with h2
      subst h2
      rfl
  · intro bs c hc
    exact bytesToHex_mem (sg bs) c hc

/-- Witness for claim C4 at concrete requests and a concrete response. -/
theorem signature_canonical_payload_witness :
    (punkt_miner.miner_process idSign ⟨"Hi. Bye.", 100, 1, 5, [], none⟩).miner_signature
      = some (bytesToHex (idSign (strEncode (serializeResponseData "Hi. Bye." 100 1
          (punkt_miner.miner_process idSign ⟨"Hi. Bye.", 100, 1, 5, [], none⟩).chunks))))
  ∧ outA.miner_signature
      = some (bytesToHex (idSign (strEncode (serializeResponseData "d" 5 2 outA.chunks))))
  ∧ '0' ∈ hexDigitChars := by
  refine ⟨(signature_canonical_payload idSign ⟨"Hi. Bye.", 100, 1, 5, [], none⟩).1, ?_, ?_⟩
  · exact (signature_canonical_payload idSign synA).2.1 (some ["a"]) outA rfl
  · exact (signature_canonical_payload idSign synA).2.2 [0] '0' (by decide)

/-- Counterexample to claim C5 as stated: on a document with no sentences the
rule-based strategy produces zero chunks and still signs and returns the result
as a success — the empty chunk list is serialized and signed. -/
theorem empty_result_signed_cex :
    (punkt_miner.miner_process idSign ⟨"", 10, 1, 5, [], none⟩).chunks = []
  ∧ (punkt_miner.miner_process idSign ⟨"", 10, 1, 5, [], none⟩).miner_signature.isSome = true :=
  ⟨rfl, rfl⟩

/-- Claim C5 (amended): the model-backed strategy never returns a zero-chunk
success and produces no signature on its failure path (it raises instead); the
rule-based strategy, however, signs whatever it produced unconditionally —
including the empty chunk list obtained from a sentence-less document. -/
theorem empty_result_error_paths (sg : List UInt8 → List UInt8) (s : chunkSynapse)
    (content : Option (List String)) :
    okChunksNonempty (openai_miner.miner_process sg s content)
  ∧ openai_miner.miner_process sg s (some []) = Except.error openai_miner.valueErrorMsg
  ∧ openai_miner.miner_process sg s none = Except.error openai_miner.valueErrorMsg
  ∧ (punkt_miner.miner_process sg s).miner_signature.isSome = true :=
  ⟨openai_ok_nonempty sg s content, rfl, rfl, rfl⟩

/-- Counterexample to claim C6 as stated: the response `[""]` contains no
non-empty chunk, yet the model-backed strategy accepts it as a success. -/
theorem validation_empty_string_cex :
    respChunks (openai_miner.miner_process idSign synA (some [""])) = [""]
  ∧ exceptIsOk (openai_miner.miner_process idSign synA (some [""])) = true
  ∧ String.isEmpty "" = true :=
  ⟨rfl, rfl, rfl⟩

/-- Claim C6 (amended): the model-backed strategy raises the recoverable
validation error exactly when the parsed `chunks` field is missing or the empty
list, and it never returns a zero-chunk success; any response with a non-empty
chunk list is accepted, with no per-chunk non-emptiness check. -/
theorem validation_requires_nonempty_list (sg : List UInt8 → List UInt8) (s : chunkSynapse)
    (content : Option (List String)) (x : String) (xs : List String) :
    openai_miner.miner_process sg s none = Except.error openai_miner.valueErrorMsg
  ∧ openai_miner.miner_process sg s (some []) = Except.error openai_miner.valueErrorMsg
  ∧ okChunksNonempty (openai_miner.miner_process sg s content)
  ∧ exceptIsOk (openai_miner.miner_process sg s (some (x :: xs))) = true :=
  ⟨rfl, rfl, openai_ok_nonempty sg s content, rfl⟩

/-- Claim C7: the rule-based strategy is order-preserving and lossless modulo
whitespace joins — every chunk is non-empty, and joining the chunks with the
single-space join character equals the space-join of the tokenized sentence
sequence of the document. -/
theorem rule_based_lossless_join (sg : List UInt8 → List UInt8) (s : chunkSynapse) :
    (∀ c ∈ (punkt_miner.miner_process sg s).chunks, 0 < c.length)
  ∧ joinSp (punkt_miner.miner_process sg s).chunks = joinSp (sent_tokenize s.document) := by
  constructor
  · intro c hc
    have hc2 : c ∈ packChunks s.chunk_size (sent_tokenize s.document) := hc
    exact packFuel_pos s.chunk_size (sent_tokenize s.document).length
      (sent_tokenize s.document) (sent_tokenize_pos s.document) c hc2
  · have h : joinSp (packChunks s.chunk_size (sent_tokenize s.document))
        = joinSp (sent_tokenize s.document) :=
      packFuel_join s.chunk_size (sent_tokenize s.document).length
        (sent_tokenize s.document) (Nat.le_refl _)
    exact h

/-- Witness for claim C7 at a concrete request. -/
theorem rule_based_lossless_join_witness :
    0 < "Hi. Bye.".length
  ∧ joinSp (punkt_miner.miner_process idSign ⟨"Hi. Bye.", 100, 1, 5, [], none⟩).chunks
      = joinSp (sent_tokenize "Hi. Bye.") :=
  ⟨(rule_based_lossless_join idSign ⟨"Hi. Bye.", 100, 1, 5, [], none⟩).1 "Hi. Bye." (by decide),
   (rule_based_lossless_join idSign ⟨"Hi. Bye.", 100, 1, 5, [], none⟩).2⟩

/-- Claim C8: the two concrete scenarios of the spec — three sentences at
`chunk_size` 15 each stand alone, and "Hi. Bye." fits in one chunk at
`chunk_size` 100. -/
theorem concrete_scenarios :
    (punkt_miner.miner_process idSign
        ⟨"Sentence one. Sentence two. Sentence three.", 15, 1, 5, [], none⟩).chunks
      = ["Sentence one.", "Sentence two.", "Sentence three."]
  ∧ (punkt_miner.miner_process idSign ⟨"Hi. Bye.", 100, 1, 5, [], none⟩).chunks
      = ["Hi. Bye."] := by
  constructor <;> decide

/-- Claim C9: the rule-based strategy is deterministic and independent of
`chunk_qty` — two invocations on the same document and `chunk_size`, with any
`chunk_qty` (and any pre-filled response fields or signer), emit identical
chunk sequences. -/
theorem rule_based_deterministic_qty_independent (sg1 sg2 : List UInt8 → List UInt8)
    (s1 s2 : chunkSynapse) (hdoc : s1.document = s2.document)
    (hsize : s1.chunk_size = s2.chunk_size) :
    (punkt_miner.miner_process sg1 s1).chunks = (punkt_miner.miner_process sg2 s2).chunks := by
  show packChunks s1.chunk_size (sent_tokenize s1.document)
      = packChunks s2.chunk_size (sent_tokenize s2.document)
  rw [hdoc, hsize]

/-- Witness for claim C9: same document and size, different quantities. -/
theorem rule_based_deterministic_qty_independent_witness :
    (punkt_miner.miner_process idSign ⟨"Hi. Bye.", 100, 1, 5, [], none⟩).chunks
      = (punkt_miner.miner_process idSign ⟨"Hi. Bye.", 100, 99, 9, ["x"], some "old"⟩).chunks :=
  rule_based_deterministic_qty_independent idSign idSign
    ⟨"Hi. Bye.", 100, 1, 5, [], none⟩ ⟨"Hi. Bye.", 100, 99, 9, ["x"], some "old"⟩ rfl rfl

/-- Claim C10: the nested greedy-packing loops terminate on every input — the
inner loop never grows the remaining sentence list, each outer iteration
consumes at least one sentence, and therefore any iteration budget of at least
the sentence count yields the same total packing. -/
theorem packing_terminates (k : Nat) :
    (∀ (cur : String) (l : List String), (fillChunk k cur l).2.length ≤ l.length)
  ∧ (∀ (fuel : Nat) (ss : List String), ss.length ≤ fuel →
      packFuel k fuel ss = packChunks k ss) := by
  constructor
  · intro cur l
    exact fillChunk_snd_length k l cur
  · intro fuel ss h
    exact packFuel_congr k fuel ss ss.length h (Nat.le_refl _)

/-- Witness for claim C10 at a concrete sentence list and budget. -/
theorem packing_terminates_witness :
    (fillChunk 15 "a" ["b"]).2.length ≤ ["b"].length
  ∧ packFuel 15 5 ["a", "b"] = packChunks 15 ["a", "b"] :=
  ⟨(packing_terminates 15).1 "a" ["b"], (packing_terminates 15).2 5 ["a", "b"] (by decide)⟩
